import Mathlib

/-!
Verification of the mcrs client library, a shallow embedding of its
response-decoding engine (`src/response.rs`), its streaming grid
collectors (`src/chunk.rs`, `src/heights.rs`) and its index/coordinate
arithmetic (`src/size.rs`, `src/size2d.rs`, `src/coordinate.rs`,
`src/coordinate2d.rs`).

Machine integers are modelled as `Nat`/`Int` with explicit wrapping:
`wrap32s` models release-mode `i32` arithmetic (two's complement,
modulo 2^32, signed window), `usizeOfI32` models the Rust cast
`i32 as usize` (sign extension reinterpreted modulo 2^64), and `usize`
arithmetic wraps modulo 2^64 where the source can overflow.
Byte streams are modelled as `List Nat` of byte values; reader EOF is
the `unexpectedEof` error, matching `Error::UnexpectedEof`.
-/

set_option maxRecDepth 4096

namespace Mcrs

/-- Release-mode `i32` wrapping: reduce modulo 2^32 into [-2^31, 2^31). -/
def wrap32s (n : Int) : Int :=
  let m := n % 4294967296
  if m < 2147483648 then m else m - 4294967296

/-- The Rust cast `i32 as usize`: sign-extend and reinterpret modulo 2^64. -/
def usizeOfI32 (n : Int) : Nat :=
  (n % 18446744073709551616).toNat

theorem wrap32s_eq (n : Int) (h0 : -2147483648 ≤ n) (h1 : n < 2147483648) :
    wrap32s n = n := by
  simp only [wrap32s]
  split <;> omega

theorem usizeOfI32_natCast (n : Nat) (h : n < 18446744073709551616) :
    usizeOfI32 (n : Int) = n := by
  unfold usizeOfI32
  omega

/-- `Terminator` from `src/response.rs`: the byte that closed a field. -/
inductive Terminator
  | comma
  | semicolon
  | newline
deriving DecidableEq

/-- `IntegerError` from `src/error.rs`. -/
inductive IntegerError
  | empty
  | invalidDigit
  | overflow
deriving DecidableEq

/-- `Error` from `src/error.rs`. The `IO(io::Error)` variant is omitted:
the pure byte-list model never produces a transport-layer error. -/
inductive Error
  | parseInt (e : IntegerError)
  | unexpectedTerminator (expected actual : Terminator)
  | unexpectedEof
deriving DecidableEq

/-- `TryFrom<u8> for Terminator` from `src/response.rs`. -/
def terminatorOfByte (b : Nat) : Option Terminator :=
  if b = 44 then some .comma
  else if b = 59 then some .semicolon
  else if b = 10 then some .newline
  else none

/-- The digit-consuming loop of `IntegerStream::read` (`src/response.rs`):
consume a maximal run of ASCII digits, accumulating
`integer = integer * 10 + digit` with `i32` wrapping, counting `len`.
Peeking past the end of the stream is `UnexpectedEof`. -/
def takeDigits : List Nat → Int → Nat → Except Error (Int × Nat × List Nat)
  | [], _, _ => .error .unexpectedEof
  | b :: rest, acc, len =>
    if 48 ≤ b ∧ b ≤ 57 then
      takeDigits rest (wrap32s (wrap32s (acc * 10) + ((b : Int) - 48))) (len + 1)
    else
      .ok (acc, len, b :: rest)

/-- The fractional-digit loop of `IntegerStream::read`: consume digits after
the decimal point, tracking whether all of them are `'0'` (`is_integer`). -/
def takeFrac : List Nat → Bool → Except Error (Bool × List Nat)
  | [], _ => .error .unexpectedEof
  | b :: rest, isInt =>
    if b = 48 then takeFrac rest isInt
    else if 49 ≤ b ∧ b ≤ 57 then takeFrac rest false
    else .ok (isInt, b :: rest)

/-- The tail of `IntegerStream::read`: consume the byte following the number
and convert it to a `Terminator`, failing with `InvalidDigit` otherwise. -/
def finishTerm (integer : Int) : List Nat → Except Error (Int × Terminator × List Nat)
  | [] => .error .unexpectedEof
  | t :: ts =>
    match terminatorOfByte t with
    | none => .error (.parseInt .invalidDigit)
    | some term => .ok (integer, term, ts)

/-- `IntegerStream::read` after the sign byte has been handled: digit run
(empty run is `Empty`), sign application, optional fractional part with the
floor adjustment for negative numbers, then the terminator byte. -/
def readAfterSign (sign : Int) (input : List Nat) : Except Error (Int × Terminator × List Nat) :=
  match takeDigits input 0 0 with
  | .error e => .error e
  | .ok (acc, len, rem) =>
    if len = 0 then .error (.parseInt .empty)
    else
      let integer := wrap32s (acc * sign)
      match rem with
      | [] => .error .unexpectedEof
      | c :: cs =>
        if c = 46 then
          match takeFrac cs true with
          | .error e => .error e
          | .ok (isInt, rem2) =>
            finishTerm (if isInt = false ∧ sign < 0 then wrap32s (integer - 1) else integer) rem2
        else
          finishTerm integer (c :: cs)

/-- `IntegerStream::read` (`src/response.rs` lines 127-201) up to the final
`try_into` narrowing: optional `+`/`-` sign, then `readAfterSign`. -/
def readRaw (input : List Nat) : Except Error (Int × Terminator × List Nat) :=
  match input with
  | [] => .error .unexpectedEof
  | b :: bs =>
    if b = 45 then readAfterSign (-1) bs
    else if b = 43 then readAfterSign 1 bs
    else readAfterSign 1 (b :: bs)

/-- `i32::try_from(i32)`: always succeeds on the i32-ranged accumulator. -/
def narrowI32 (n : Int) : Option Int :=
  if -2147483648 ≤ n ∧ n < 2147483648 then some n else none

/-- `u32::try_from(i32)`: succeeds exactly on values in u32 range. -/
def narrowU32 (n : Int) : Option Int :=
  if 0 ≤ n ∧ n < 4294967296 then some n else none

/-- `IntegerStream::read::<T>`: decode a field, then narrow the signed
accumulator into the caller-requested width; failure is `Overflow`. -/
def readNum (narrow : Int → Option Int) (input : List Nat) :
    Except Error (Int × Terminator × List Nat) :=
  match readRaw input with
  | .error e => .error e
  | .ok (n, term, rest) =>
    match narrow n with
    | none => .error (.parseInt .overflow)
    | some m => .ok (m, term, rest)

/-- `WithTerminator::expect_terminator` (`src/response.rs`). -/
def expect_terminator (value : Int) (actual expected : Terminator) : Except Error Int :=
  if actual ≠ expected then .error (.unexpectedTerminator expected actual)
  else .ok value

/-- `Block` (`src/block.rs`): a (id, modifier) pair of u32 values. -/
structure Block where
  id : Int
  modifier : Int
deriving DecidableEq

/-- `Coordinate` (`src/coordinate.rs`): an i32 triple. -/
structure Coordinate where
  x : Int
  y : Int
  z : Int
deriving DecidableEq

/-- `Coordinate2D` (`src/coordinate2d.rs`): an i32 pair. -/
structure Coordinate2D where
  x : Int
  z : Int
deriving DecidableEq

/-- `Size` (`src/size.rs`): a u32 triple of grid dimensions. -/
structure Size where
  x : Nat
  y : Nat
  z : Nat
deriving DecidableEq

/-- `Size2D` (`src/size2d.rs`): a u32 pair of grid dimensions. -/
structure Size2D where
  x : Nat
  z : Nat
deriving DecidableEq

/-- `Coordinate::min`: component-wise minimum. -/
def Coordinate.min (a b : Coordinate) : Coordinate :=
  ⟨Min.min a.x b.x, Min.min a.y b.y, Min.min a.z b.z⟩

/-- `Coordinate::size_between`: `(self - other).unsigned_abs() + 1` per axis,
with the i32 subtraction wrapping as in release mode. -/
def Coordinate.size_between (a b : Coordinate) : Size :=
  ⟨(wrap32s (a.x - b.x)).natAbs + 1,
   (wrap32s (a.y - b.y)).natAbs + 1,
   (wrap32s (a.z - b.z)).natAbs + 1⟩

/-- `Coordinate2D::min`. -/
def Coordinate2D.min (a b : Coordinate2D) : Coordinate2D :=
  ⟨Min.min a.x b.x, Min.min a.z b.z⟩

/-- `Coordinate2D::size_between`. -/
def Coordinate2D.size_between (a b : Coordinate2D) : Size2D :=
  ⟨(wrap32s (a.x - b.x)).natAbs + 1, (wrap32s (a.z - b.z)).natAbs + 1⟩

/-- `Size::index_to_offset` (`src/size.rs` lines 44-50): row-major index to
offset coordinate, z varying fastest; each component is cast `as i32`. -/
def Size.index_to_offset (s : Size) (index : Nat) : Coordinate :=
  let z := wrap32s (index % s.z : Nat)
  let xy := index / s.z
  let x := wrap32s (xy % s.x : Nat)
  let y := wrap32s (xy / s.x : Nat)
  ⟨x, y, z⟩

/-- `Size::offset_to_index` (`src/size.rs` lines 55-63):
`z + (x + y * x_extent) * z_extent` with each i32 component cast
`as usize`; the usize arithmetic wraps modulo 2^64. -/
def Size.offset_to_index (s : Size) (c : Coordinate) : Nat :=
  (usizeOfI32 c.z + (usizeOfI32 c.x + usizeOfI32 c.y * s.x) * s.z) %
    18446744073709551616

/-- `Size::contains`: membership of an offset coordinate in
`(0..x as i32) x (0..y as i32) x (0..z as i32)`. -/
def Size.contains (s : Size) (c : Coordinate) : Prop :=
  0 ≤ c.x ∧ c.x < wrap32s s.x ∧ 0 ≤ c.y ∧ c.y < wrap32s s.y ∧
    0 ≤ c.z ∧ c.z < wrap32s s.z

instance (s : Size) (c : Coordinate) : Decidable (s.contains c) := by
  unfold Size.contains
  infer_instance

/-- `Size2D::index_to_offset` (`src/size2d.rs` lines 30-34). -/
def Size2D.index_to_offset (s : Size2D) (index : Nat) : Coordinate2D :=
  ⟨wrap32s (index / s.z : Nat), wrap32s (index % s.z : Nat)⟩

/-- `Size2D::offset_to_index` (`src/size2d.rs` lines 39-42):
`z + x * z_extent` over usize, wrapping modulo 2^64. -/
def Size2D.offset_to_index (s : Size2D) (c : Coordinate2D) : Nat :=
  (usizeOfI32 c.z + usizeOfI32 c.x * s.z) % 18446744073709551616

/-- `Size2D::area`: `x as usize * z as usize`, wrapping modulo 2^64. -/
def Size2D.areaW (s : Size2D) : Nat :=
  s.x * s.z % 18446744073709551616

/-- `Size2D::contains`. -/
def Size2D.contains (s : Size2D) (c : Coordinate2D) : Prop :=
  0 ≤ c.x ∧ c.x < wrap32s s.x ∧ 0 ≤ c.z ∧ c.z < wrap32s s.z

instance (s : Size2D) (c : Coordinate2D) : Decidable (s.contains c) := by
  unfold Size2D.contains
  infer_instance

/-- `ResponseStream::next_i32`: one signed field, Comma-terminated. -/
def next_i32 (input : List Nat) : Except Error (Int × List Nat) :=
  match readNum narrowI32 input with
  | .error e => .error e
  | .ok (n, term, rest) =>
    match expect_terminator n term .comma with
    | .error e => .error e
    | .ok v => .ok (v, rest)

/-- `ResponseStream::final_i32`: one signed field, Newline-terminated. -/
def final_i32 (input : List Nat) : Except Error (Int × List Nat) :=
  match readNum narrowI32 input with
  | .error e => .error e
  | .ok (n, term, rest) =>
    match expect_terminator n term .newline with
    | .error e => .error e
    | .ok v => .ok (v, rest)

/-- `ResponseStream::next_block`: two unsigned fields, Comma then Semicolon. -/
def next_block (input : List Nat) : Except Error (Block × List Nat) :=
  match readNum narrowU32 input with
  | .error e => .error e
  | .ok (idRaw, t1, r1) =>
    match expect_terminator idRaw t1 .comma with
    | .error e => .error e
    | .ok idVal =>
      match readNum narrowU32 r1 with
      | .error e => .error e
      | .ok (moRaw, t2, r2) =>
        match expect_terminator moRaw t2 .semicolon with
        | .error e => .error e
        | .ok moVal => .ok (⟨idVal, moVal⟩, r2)

/-- `ResponseStream::final_block`: two unsigned fields, Comma then Newline. -/
def final_block (input : List Nat) : Except Error (Block × List Nat) :=
  match readNum narrowU32 input with
  | .error e => .error e
  | .ok (idRaw, t1, r1) =>
    match expect_terminator idRaw t1 .comma with
    | .error e => .error e
    | .ok idVal =>
      match readNum narrowU32 r1 with
      | .error e => .error e
      | .ok (moRaw, t2, r2) =>
        match expect_terminator moRaw t2 .newline with
        | .error e => .error e
        | .ok moVal => .ok (⟨idVal, moVal⟩, r2)

/-- `ChunkStream` (`src/chunk.rs`): response cursor plus origin and size;
the remaining response bytes stand in for the borrowed reader. -/
structure ChunkStream where
  input : List Nat
  index : Nat
  origin : Coordinate
  size : Size
deriving DecidableEq

/-- `StreamItem` (`src/chunk.rs`): holds the parent stream's size and the
cursor value stored at creation (the source stores `index: self.index`
after the increment, so this is the post-increment cursor). -/
structure StreamItem where
  size : Size
  index : Nat
  block : Block
deriving DecidableEq

/-- `StreamItem::position_offset`: `self.chunk.size.index_to_offset(self.index)`. -/
def StreamItem.position_offset (it : StreamItem) : Coordinate :=
  it.size.index_to_offset it.index

/-- `ChunkStream::next` (`src/chunk.rs` lines 37-51): stop once the cursor
reaches `size.x * size.y * size.z` (a u32 product, wrapping modulo 2^32);
otherwise decode one block with the mid-list accessor `next_block`
(the source never calls `final_block` here), increment the cursor, and
yield an item carrying the post-increment cursor. -/
def ChunkStream.next (s : ChunkStream) :
    Except Error (Option (StreamItem × ChunkStream)) :=
  if s.size.x * s.size.y % 4294967296 * s.size.z % 4294967296 ≤ s.index then
    .ok none
  else
    match next_block s.input with
    | .error e => .error e
    | .ok (b, rest) =>
      .ok (some (⟨s.size, s.index + 1, b⟩,
        { s with input := rest, index := s.index + 1 }))

/-- Fuelled drain loop over `ChunkStream::next`; with fuel at least
`volume - index + 1` it is the loop of `ChunkStream::collect`. -/
def ChunkStream.drainFuel : Nat → ChunkStream → Except Error (List StreamItem × ChunkStream)
  | 0, s => .ok ([], s)
  | fuel + 1, s =>
    match s.next with
    | .error e => .error e
    | .ok none => .ok ([], s)
    | .ok (some (item, s')) =>
      match ChunkStream.drainFuel fuel s' with
      | .error e => .error e
      | .ok (l, s'') => .ok (item :: l, s'')

/-- `Chunk` (`src/chunk.rs`): dense block list with origin and size. -/
structure Chunk where
  list : List Block
  origin : Coordinate
  size : Size
deriving DecidableEq

/-- `Chunk::get_offset` (`src/chunk.rs` lines 124-135): `None` outside the
size, otherwise the list entry at the row-major index (the source asserts
the index is within the list; `List.get?` returns `none` there instead). -/
def Chunk.get_offset (c : Chunk) (p : Coordinate) : Option Block :=
  if c.size.contains p then c.list.get? (c.size.offset_to_index p) else none

/-- `ChunkStream::collect` (`src/chunk.rs` lines 53-65): the
`assert!(self.index == 0)` is modelled as `none`; otherwise drain the
stream and build the `Chunk`. -/
def ChunkStream.collect (s : ChunkStream) : Option (Except Error Chunk) :=
  if s.index ≠ 0 then none
  else
    some (match s.drainFuel
        (s.size.x * s.size.y % 4294967296 * s.size.z % 4294967296 + 1) with
      | .error e => .error e
      | .ok (items, _) => .ok ⟨items.map StreamItem.block, s.origin, s.size⟩)

/-- `HeightsStream` (`src/heights.rs`). -/
structure HeightsStream where
  input : List Nat
  index : Nat
  origin : Coordinate2D
  size : Size2D
deriving DecidableEq

/-- `HeightsStreamItem` (`src/heights.rs`): like `StreamItem`, it stores the
post-increment cursor. -/
structure HeightsStreamItem where
  size : Size2D
  index : Nat
  height : Int
deriving DecidableEq

/-- `HeightsStreamItem::position_offset`. -/
def HeightsStreamItem.position_offset (it : HeightsStreamItem) : Coordinate2D :=
  it.size.index_to_offset it.index

/-- `HeightsStream::next` (`src/heights.rs` lines 81-98): stop at
`index >= size.area()`; otherwise increment the cursor first, then decode
with `final_i32` if the incremented cursor reached the area (last element)
and with `next_i32` otherwise. -/
def HeightsStream.next (s : HeightsStream) :
    Except Error (Option (HeightsStreamItem × HeightsStream)) :=
  if s.size.areaW ≤ s.index then
    .ok none
  else
    match (if s.size.areaW ≤ s.index + 1 then final_i32 s.input
           else next_i32 s.input) with
    | .error e => .error e
    | .ok (h, rest) =>
      .ok (some (⟨s.size, s.index + 1, h⟩,
        { s with input := rest, index := s.index + 1 }))

/-- Fuelled drain loop over `HeightsStream::next`. -/
def HeightsStream.drainFuel :
    Nat → HeightsStream → Except Error (List HeightsStreamItem × HeightsStream)
  | 0, s => .ok ([], s)
  | fuel + 1, s =>
    match s.next with
    | .error e => .error e
    | .ok none => .ok ([], s)
    | .ok (some (item, s')) =>
      match HeightsStream.drainFuel fuel s' with
      | .error e => .error e
      | .ok (l, s'') => .ok (item :: l, s'')

/-- `Heights` (`src/heights.rs`). -/
structure Heights where
  list : List Int
  origin : Coordinate2D
  size : Size2D
deriving DecidableEq

/-- `Heights::get_offset` (`src/heights.rs` lines 16-27). -/
def Heights.get_offset (h : Heights) (p : Coordinate2D) : Option Int :=
  if h.size.contains p then h.list.get? (h.size.offset_to_index p) else none

/-- `HeightsStream::collect` (`src/heights.rs` lines 100-112), with the
assertion on a partially-consumed stream modelled as `none`. -/
def HeightsStream.collect (s : HeightsStream) : Option (Except Error Heights) :=
  if s.index ≠ 0 then none
  else
    some (match s.drainFuel (s.size.areaW + 1) with
      | .error e => .error e
      | .ok (items, _) => .ok ⟨items.map HeightsStreamItem.height, s.origin, s.size⟩)

/-- `BufReader` (`src/response.rs` lines 74-112): a fixed buffer over a byte
source. The source of bytes is modelled as the list of chunks successive
`read` calls return; an empty chunk (or an exhausted list) is a read of
zero bytes, i.e. end of stream. -/
structure BufReader where
  inner : List (List Nat)
  buffer : List Nat
  index : Nat
  length : Nat
deriving DecidableEq

/-- `BufReader::peek`: refill from the source when `index >= length`
(zero bytes read is `UnexpectedEof`), then return `buffer[index]`
without advancing. -/
def BufReader.peek (r : BufReader) : Except Error (Nat × BufReader) :=
  if r.length ≤ r.index then
    match r.inner with
    | [] => .error .unexpectedEof
    | c :: rest =>
      if c.length = 0 then .error .unexpectedEof
      else
        let buf := c ++ r.buffer.drop c.length
        .ok (buf.getD 0 0, ⟨rest, buf, 0, c.length⟩)
  else
    .ok (r.buffer.getD r.index 0, r)

/-- `BufReader::next`: peek, then advance the cursor past the peeked byte. -/
def BufReader.next (r : BufReader) : Except Error (Nat × BufReader) :=
  match r.peek with
  | .error e => .error e
  | .ok (b, r') => .ok (b, { r' with index := r'.index + 1 })

/-- Exact (unbounded) decimal accumulator over a digit-byte run. -/
def natFold : Nat → List Nat → Nat
  | acc, [] => acc
  | acc, d :: ds => natFold (acc * 10 + (d - 48)) ds

/-- Numeric value denoted by a run of ASCII digit bytes. -/
def digitsVal (ds : List Nat) : Nat := natFold 0 ds

/-- Wrapping i32 accumulator over a digit-byte run, mirroring the
accumulation steps of `takeDigits`. -/
def wfold : Int → List Nat → Int
  | acc, [] => acc
  | acc, d :: ds => wfold (wrap32s (wrap32s (acc * 10) + ((d : Int) - 48))) ds

theorem natFold_le : ∀ (ds : List Nat) (acc : Nat), acc ≤ natFold acc ds
  | [], _ => le_refl _
  | d :: ds, acc =>
    le_trans (by omega : acc ≤ acc * 10 + (d - 48)) (natFold_le ds (acc * 10 + (d - 48)))

theorem wfold_eq_natFold : ∀ (ds : List Nat) (acc : Nat),
    (∀ d ∈ ds, 48 ≤ d ∧ d ≤ 57) → natFold acc ds < 2147483648 →
    wfold (acc : Int) ds = (natFold acc ds : Int) := by
  intro ds
  induction ds with
  | nil => intro acc _ _; rfl
  | cons d ds ih =>
    intro acc hds hlt
    have hd : 48 ≤ d ∧ d ≤ 57 := hds d (by simp)
    have hstep : natFold acc (d :: ds) = natFold (acc * 10 + (d - 48)) ds := rfl
    have hmono : acc * 10 + (d - 48) ≤ natFold (acc * 10 + (d - 48)) ds :=
      natFold_le ds _
    rw [hstep] at hlt
    have hacc : acc * 10 + (d - 48) < 2147483648 := lt_of_le_of_lt hmono hlt
    have h1 : wrap32s ((acc : Int) * 10) = (acc : Int) * 10 := by
      apply wrap32s_eq
      · omega
      · exact_mod_cast (by omega : acc * 10 < 2147483648)
    have hcast : (acc : Int) * 10 + ((d : Int) - 48) = ((acc * 10 + (d - 48) : Nat) : Int) := by
      omega
    have h2 : wrap32s ((acc : Int) * 10 + ((d : Int) - 48)) =
        ((acc * 10 + (d - 48) : Nat) : Int) := by
      rw [hcast]
      apply wrap32s_eq
      · omega
      · exact_mod_cast hacc
    have hun : wfold (acc : Int) (d :: ds) =
        wfold (wrap32s (wrap32s ((acc : Int) * 10) + ((d : Int) - 48))) ds := by
      simp only [wfold]
    rw [hun, h1, h2, ih (acc * 10 + (d - 48)) (fun x hx => hds x (by simp [hx])) hlt,
      hstep]

theorem takeDigits_append (ds : List Nat) (b : Nat) (r : List Nat) :
    ∀ (acc : Int) (len : Nat), (∀ d ∈ ds, 48 ≤ d ∧ d ≤ 57) → ¬(48 ≤ b ∧ b ≤ 57) →
    takeDigits (ds ++ b :: r) acc len = .ok (wfold acc ds, len + ds.length, b :: r) := by
  induction ds with
  | nil =>
    intro acc len _ hb
    simp [takeDigits, hb, wfold]
  | cons d ds ih =>
    intro acc len hds hb
    have hd : 48 ≤ d ∧ d ≤ 57 := hds d (by simp)
    have hlen : len + 1 + ds.length = len + (ds.length + 1) := by omega
    simp only [List.cons_append, takeDigits, if_pos hd, List.append_eq]
    rw [ih _ _ (fun x hx => hds x (by simp [hx])) hb, hlen]
    rfl

theorem takeFrac_append (fs : List Nat) (b : Nat) (r : List Nat) :
    ∀ isInt : Bool, (∀ d ∈ fs, 48 ≤ d ∧ d ≤ 57) → ¬(48 ≤ b ∧ b ≤ 57) →
    takeFrac (fs ++ b :: r) isInt =
      .ok (isInt && fs.all (fun d => d == 48), b :: r) := by
  induction fs with
  | nil =>
    intro isInt _ hb
    have h48 : ¬(b = 48) := by omega
    have h49 : ¬(49 ≤ b ∧ b ≤ 57) := by omega
    simp [takeFrac, h48, h49]
  | cons d fs ih =>
    intro isInt hds hb
    have hd : 48 ≤ d ∧ d ≤ 57 := hds d (by simp)
    by_cases h : d = 48
    · subst h
      simp only [List.cons_append, takeFrac, List.append_eq, eq_self_iff_true, if_true]
      rw [ih isInt (fun x hx => hds x (by simp [hx])) hb]
      simp
    · have h49 : 49 ≤ d ∧ d ≤ 57 := by omega
      simp only [List.cons_append, takeFrac, if_neg h, if_pos h49, List.append_eq]
      rw [ih false (fun x hx => hds x (by simp [hx])) hb]
      simp [h]

theorem terminatorOfByte_cases (t : Nat) (term : Terminator)
    (h : terminatorOfByte t = some term) : t = 44 ∨ t = 59 ∨ t = 10 := by
  unfold terminatorOfByte at h
  split_ifs at h <;> simp_all

theorem finishTerm_cons (n : Int) (t : Nat) (rest : List Nat) (term : Terminator)
    (h : terminatorOfByte t = some term) :
    finishTerm n (t :: rest) = .ok (n, term, rest) := by
  simp [finishTerm, h]

theorem digitsVal_wfold (ds : List Nat) (hds : ∀ d ∈ ds, 48 ≤ d ∧ d ≤ 57)
    (hval : digitsVal ds < 2147483648) : wfold 0 ds = (digitsVal ds : Int) := by
  have h := wfold_eq_natFold ds 0 hds hval
  simpa [digitsVal] using h

theorem length_ne_zero_of_ne_nil {ds : List Nat} (hne : ds ≠ []) :
    ¬(0 + ds.length = 0) := by
  cases ds with
  | nil => exact absurd rfl hne
  | cons a l => simp

/-- Behaviour of the decoder body on a well-formed negative field with a
fractional part: the digit value is negated and, exactly when some
fractional digit is non-zero, lowered by one more (floor semantics). -/
theorem readAfterSign_neg (ds fs : List Nat) (t : Nat) (rest : List Nat)
    (term : Terminator) (hne : ds ≠ []) (hds : ∀ d ∈ ds, 48 ≤ d ∧ d ≤ 57)
    (hfs : ∀ d ∈ fs, 48 ≤ d ∧ d ≤ 57) (hval : digitsVal ds < 2147483648)
    (ht : terminatorOfByte t = some term) :
    readAfterSign (-1) (ds ++ 46 :: (fs ++ t :: rest)) =
      .ok ((if fs.all (fun d => d == 48) then -(digitsVal ds : Int)
            else -(digitsVal ds : Int) - 1), term, rest) := by
  have hterm := terminatorOfByte_cases t term ht
  have hdot : ¬(48 ≤ 46 ∧ 46 ≤ 57) := by omega
  have htd : ¬(48 ≤ t ∧ t ≤ 57) := by omega
  have hlen0 := length_ne_zero_of_ne_nil hne
  have hneg : wrap32s ((digitsVal ds : Int) * -1) = -(digitsVal ds : Int) := by
    have hm : (digitsVal ds : Int) * -1 = -(digitsVal ds : Int) := by ring
    rw [hm]
    apply wrap32s_eq <;> omega
  unfold readAfterSign
  rw [takeDigits_append ds 46 (fs ++ t :: rest) 0 0 hds hdot]
  simp only [if_neg hlen0, digitsVal_wfold ds hds hval, hneg,
    takeFrac_append fs t rest true hfs htd]
  by_cases hall : fs.all (fun d => d == 48)
  · simp only [hall, Bool.true_and, if_pos hall]
    have hcond : ¬(true = false ∧ (-1 : Int) < 0) := by simp
    simp only [if_true, if_neg hcond, finishTerm_cons _ t rest term ht]
  · simp only [Bool.not_eq_true] at hall
    have hm1 : wrap32s (-(digitsVal ds : Int) - 1) = -(digitsVal ds : Int) - 1 := by
      apply wrap32s_eq <;> omega
    simp only [hall, Bool.true_and, Bool.false_eq_true, if_false]
    have hcond : (True ∧ (-1 : Int) < 0) := ⟨trivial, by norm_num⟩
    simp only [if_true, if_pos hcond, hm1, finishTerm_cons _ t rest term ht]

/-- Behaviour of the decoder body on a well-formed non-negative field with a
fractional part: the fraction is discarded entirely (truncation). -/
theorem readAfterSign_pos (ds fs : List Nat) (t : Nat) (rest : List Nat)
    (term : Terminator) (hne : ds ≠ []) (hds : ∀ d ∈ ds, 48 ≤ d ∧ d ≤ 57)
    (hfs : ∀ d ∈ fs, 48 ≤ d ∧ d ≤ 57) (hval : digitsVal ds < 2147483648)
    (ht : terminatorOfByte t = some term) :
    readAfterSign 1 (ds ++ 46 :: (fs ++ t :: rest)) =
      .ok ((digitsVal ds : Int), term, rest) := by
  have hterm := terminatorOfByte_cases t term ht
  have hdot : ¬(48 ≤ 46 ∧ 46 ≤ 57) := by omega
  have htd : ¬(48 ≤ t ∧ t ≤ 57) := by omega
  have hlen0 := length_ne_zero_of_ne_nil hne
  have hpos : wrap32s ((digitsVal ds : Int) * 1) = (digitsVal ds : Int) := by
    have hm : (digitsVal ds : Int) * 1 = (digitsVal ds : Int) := by ring
    rw [hm]
    apply wrap32s_eq <;> omega
  unfold readAfterSign
  rw [takeDigits_append ds 46 (fs ++ t :: rest) 0 0 hds hdot]
  simp only [if_neg hlen0, digitsVal_wfold ds hds hval, hpos,
    takeFrac_append fs t rest true hfs htd]
  have hcond : ¬((true && fs.all (fun d => d == 48)) = false ∧ (1 : Int) < 0) := by
    intro h
    exact absurd h.2 (by norm_num)
  simp only [if_true, if_neg hcond, finishTerm_cons _ t rest term ht]

theorem readRaw_neg (bs : List Nat) : readRaw (45 :: bs) = readAfterSign (-1) bs := by
  simp [readRaw]

theorem readRaw_nosign (b : Nat) (bs : List Nat) (h45 : b ≠ 45) (h43 : b ≠ 43) :
    readRaw (b :: bs) = readAfterSign 1 (b :: bs) := by
  simp [readRaw, h45, h43]

/-- C1: for every well-formed signed numeric field the decoder applies floor
semantics: a negative sign together with a fractional run containing a
non-zero digit lowers the result by one, while non-negative fields simply
truncate; in particular "-1.3," decodes to -2 with terminator Comma and
"1.9," decodes to 1 with terminator Comma. -/
theorem c1_floor_semantics :
    (∀ ds fs t rest term, ds ≠ [] →
      (∀ d ∈ ds, 48 ≤ d ∧ d ≤ 57) → (∀ d ∈ fs, 48 ≤ d ∧ d ≤ 57) →
      (∃ d ∈ fs, d ≠ 48) → digitsVal ds < 2147483648 →
      terminatorOfByte t = some term →
      readRaw (45 :: (ds ++ 46 :: (fs ++ t :: rest))) =
        .ok (-(digitsVal ds : Int) - 1, term, rest)) ∧
    (∀ ds fs t rest term, ds ≠ [] →
      (∀ d ∈ ds, 48 ≤ d ∧ d ≤ 57) → (∀ d ∈ fs, 48 ≤ d ∧ d ≤ 57) →
      digitsVal ds < 2147483648 →
      terminatorOfByte t = some term →
      readRaw (ds ++ 46 :: (fs ++ t :: rest)) =
        .ok ((digitsVal ds : Int), term, rest)) ∧
    readNum narrowI32 [45, 49, 46, 51, 44] = .ok (-2, .comma, []) ∧
    readNum narrowI32 [49, 46, 57, 44] = .ok (1, .comma, []) := by
  refine ⟨?_, ?_, by rfl, by rfl⟩
  · intro ds fs t rest term hne hds hfs hnz hval ht
    rw [readRaw_neg, readAfterSign_neg ds fs t rest term hne hds hfs hval ht]
    have hall : fs.all (fun d => d == 48) = false := by
      rcases hnz with ⟨d, hdm, hdn⟩
      rcases h : fs.all (fun d => d == 48) with _ | _
      · rfl
      · have hmem := List.all_eq_true.mp h d hdm
        exact absurd (by simpa using hmem) hdn
    simp [hall]
  · intro ds fs t rest term hne hds hfs hval ht
    rcases ds with _ | ⟨d, ds'⟩
    · exact absurd rfl hne
    have hd := hds d (by simp)
    have h45 : d ≠ 45 := by omega
    have h43 : d ≠ 43 := by omega
    rw [List.cons_append, readRaw_nosign d _ h45 h43, ← List.cons_append,
      readAfterSign_pos (d :: ds') fs t rest term hne hds hfs hval ht]

/-- Closed instantiation of `c1_floor_semantics`: the general negative-floor
part applied to the bytes of "-1.3," discharging every hypothesis. -/
theorem c1_floor_semantics_witness :
    readRaw (45 :: ([49] ++ 46 :: ([51] ++ 44 :: []))) =
      .ok (-(digitsVal [49] : Int) - 1, .comma, []) :=
  c1_floor_semantics.1 [49] [51] 44 [] .comma (by decide) (by decide) (by decide)
    ⟨51, by decide, by decide⟩ (by decide) (by decide)

theorem readRaw_plus (bs : List Nat) : readRaw (43 :: bs) = readAfterSign 1 bs := by
  simp [readRaw]

theorem readAfterSign_empty (sign : Int) (b : Nat) (rest : List Nat)
    (hnd : ¬(48 ≤ b ∧ b ≤ 57)) :
    readAfterSign sign (b :: rest) = .error (.parseInt .empty) := by
  unfold readAfterSign
  simp [takeDigits, hnd]

/-- C10: a digit run whose decimal point is immediately followed by a
terminator byte (zero-length fractional run) decodes successfully: the
value is the integer part with the sign applied and no floor adjustment;
"5.," yields 5 with terminator Comma and "-5.," yields -5 with
terminator Comma. -/
theorem c10_empty_fraction :
    (∀ ds t rest term, ds ≠ [] →
      (∀ d ∈ ds, 48 ≤ d ∧ d ≤ 57) → digitsVal ds < 2147483648 →
      terminatorOfByte t = some term →
      readRaw (45 :: (ds ++ 46 :: t :: rest)) =
        .ok (-(digitsVal ds : Int), term, rest)) ∧
    (∀ ds t rest term, ds ≠ [] →
      (∀ d ∈ ds, 48 ≤ d ∧ d ≤ 57) → digitsVal ds < 2147483648 →
      terminatorOfByte t = some term →
      readRaw (ds ++ 46 :: t :: rest) = .ok ((digitsVal ds : Int), term, rest)) ∧
    readNum narrowI32 [53, 46, 44] = .ok (5, .comma, []) ∧
    readNum narrowI32 [45, 53, 46, 44] = .ok (-5, .comma, []) := by
  refine ⟨?_, ?_, by rfl, by rfl⟩
  · intro ds t rest term hne hds hval ht
    have h := readAfterSign_neg ds [] t rest term hne hds (by simp) hval ht
    rw [readRaw_neg]
    simpa using h
  · intro ds t rest term hne hds hval ht
    rcases ds with _ | ⟨d, ds'⟩
    · exact absurd rfl hne
    have hd := hds d (by simp)
    have h45 : d ≠ 45 := by omega
    have h43 : d ≠ 43 := by omega
    have h := readAfterSign_pos (d :: ds') [] t rest term hne hds (by simp) hval ht
    rw [List.cons_append, readRaw_nosign d _ h45 h43, ← List.cons_append]
    simpa using h

/-- Closed instantiation of `c10_empty_fraction`: the negative part applied
to the bytes of "-5.,". -/
theorem c10_empty_fraction_witness :
    readRaw (45 :: ([53] ++ 46 :: 44 :: [])) =
      .ok (-(digitsVal [53] : Int), .comma, []) :=
  c10_empty_fraction.1 [53] 44 [] .comma (by decide) (by decide) (by decide)
    (by decide)

/-- C8: an optional sign immediately followed by a field separator has a
zero-length digit run, so decoding fails with the Empty (EmptyDigits)
error; in particular ",5\n" fails this way. -/
theorem c8_empty_digits :
    ∀ b rest, (b = 44 ∨ b = 59 ∨ b = 10) →
      readRaw (b :: rest) = .error (.parseInt .empty) ∧
      readRaw (45 :: b :: rest) = .error (.parseInt .empty) ∧
      readRaw (43 :: b :: rest) = .error (.parseInt .empty) := by
  intro b rest hb
  have h45 : b ≠ 45 := by omega
  have h43 : b ≠ 43 := by omega
  have hnd : ¬(48 ≤ b ∧ b ≤ 57) := by omega
  refine ⟨?_, ?_, ?_⟩
  · rw [readRaw_nosign b rest h45 h43]
    exact readAfterSign_empty 1 b rest hnd
  · rw [readRaw_neg]
    exact readAfterSign_empty (-1) b rest hnd
  · rw [readRaw_plus]
    exact readAfterSign_empty 1 b rest hnd

/-- Closed instantiation of `c8_empty_digits`: the bytes of ",5\n" (an empty
leading field) fail with the Empty error. -/
theorem c8_empty_digits_witness :
    (44 = 44 ∨ 44 = 59 ∨ 44 = 10) ∧
      readRaw [44, 53, 10] = .error (.parseInt .empty) :=
  ⟨Or.inl rfl, (c8_empty_digits 44 [53, 10] (Or.inl rfl)).1⟩

theorem wfold_zero_replicate : ∀ k : Nat, wfold 0 (List.replicate k 48) = 0
  | 0 => rfl
  | k + 1 => by
    have hstep : wfold (0 : Int) (List.replicate (k + 1) 48) =
        wfold (wrap32s (wrap32s (0 * 10) + ((48 : Int) - 48))) (List.replicate k 48) := by
      simp only [List.replicate_succ, wfold, Nat.cast_ofNat]
    have hz : wrap32s (wrap32s ((0 : Int) * 10) + ((48 : Int) - 48)) = 0 := by decide
    rw [hstep, hz, wfold_zero_replicate k]

theorem readNum_u32_zero_run (n : Nat) :
    readNum narrowU32 (List.replicate (n + 1) 48 ++ [44]) = .ok (0, .comma, []) := by
  have hrep : List.replicate (n + 1) 48 ++ [44] =
      48 :: (List.replicate n 48 ++ [44]) := by
    simp [List.replicate_succ]
  have hall : ∀ d ∈ List.replicate (n + 1) 48, 48 ≤ d ∧ d ≤ 57 := by
    intro d hd
    rw [List.eq_of_mem_replicate hd]
    omega
  unfold readNum
  rw [hrep, readRaw_nosign 48 _ (by decide) (by decide), ← hrep]
  unfold readAfterSign
  rw [show List.replicate (n + 1) 48 ++ [44] =
      List.replicate (n + 1) 48 ++ 44 :: [] from rfl,
    takeDigits_append _ 44 [] 0 0 hall (by decide), wfold_zero_replicate]
  have h0 : wrap32s ((0 : Int) * 1) = 0 := by decide
  have hz : wrap32s (0 : Int) = 0 := by decide
  simp [List.length_replicate, h0, hz, finishTerm, terminatorOfByte, narrowU32]

/-- C4 counterexample: the decoder does not have the claimed distinct error
kinds. Byte 0xFF (outside printable ASCII) in terminator position yields
the generic InvalidDigit kind and at field start it yields Empty - there is
no NonAsciiByte kind in `Error`/`IntegerError` - and a 100-byte digit field
(far past the claimed fixed cap, e.g. 48 bytes) decodes successfully, so
there is no FieldTooLong kind either. -/
theorem c4_no_nonascii_no_cap :
    readRaw [53, 255] = .error (.parseInt .invalidDigit) ∧
    readRaw [255, 44] = .error (.parseInt .empty) ∧
    readNum narrowU32 (List.replicate 100 48 ++ [44]) = .ok (0, .comma, []) :=
  ⟨rfl, rfl, readNum_u32_zero_run 99⟩

/-- C4 amended: bytes outside printable ASCII get no dedicated error kind -
any byte ending a field that is not a valid terminator (ASCII or not) is
reported as InvalidDigit - and there is no per-field length cap: a digit
field of any length decodes successfully. -/
theorem c4_amended_error_kinds :
    (∀ b rest, ¬(48 ≤ b ∧ b ≤ 57) → b ≠ 46 → terminatorOfByte b = none →
      readRaw (53 :: b :: rest) = .error (.parseInt .invalidDigit)) ∧
    (∀ n : Nat, readNum narrowU32 (List.replicate (n + 1) 48 ++ [44]) =
      .ok (0, .comma, [])) := by
  constructor
  · intro b rest hnd h46 hterm
    rw [readRaw_nosign 53 (b :: rest) (by decide) (by decide),
      show (53 : Nat) :: b :: rest = [53] ++ b :: rest from rfl]
    unfold readAfterSign
    rw [takeDigits_append [53] b rest 0 0 (by decide) hnd]
    have h5 : wrap32s (wfold 0 [53] * 1) = 5 := by decide
    simp [h5, h46, finishTerm, hterm]
  · exact readNum_u32_zero_run

/-- Closed instantiation of `c4_amended_error_kinds`: byte 0xFF ending the
field "5" is reported as InvalidDigit. -/
theorem c4_amended_error_kinds_witness :
    (255 ≠ 46) ∧ readRaw (53 :: 255 :: []) = .error (.parseInt .invalidDigit) :=
  ⟨by decide, c4_amended_error_kinds.1 255 [] (by decide) (by decide) (by decide)⟩

/-- C5 evaluated at the failing input: the bytes of "99999999999," decoded
in the u32 context (and likewise the i32 context) return Ok(1215752191) -
the release-mode accumulator having wrapped modulo 2^32 - instead of the
IntegerOverflow error the claim requires; a debug build instead stops at
the overflowing i32 multiply-accumulate. -/
theorem c5_overflow_wraps :
    readNum narrowU32 [57, 57, 57, 57, 57, 57, 57, 57, 57, 57, 57, 44] =
      .ok (1215752191, .comma, []) ∧
    readNum narrowI32 [57, 57, 57, 57, 57, 57, 57, 57, 57, 57, 57, 44] =
      .ok (1215752191, .comma, []) :=
  ⟨rfl, rfl⟩

/-- C7 counterexample: for the extent (2^31+1, 1, 1) - representable in u32,
e.g. from corners with x values 0 and i32::MIN via |delta|+1 - the index
2^31 lies in [0, volume), yet `index_to_offset` truncates its x component
in the `as i32` cast to -2^31, and the round trip through
`offset_to_index` returns 2^64 - 2^31 instead of the index. -/
theorem c7_roundtrip_counterexample :
    2147483648 <
      (Size.mk 2147483649 1 1).x * (Size.mk 2147483649 1 1).y *
        (Size.mk 2147483649 1 1).z ∧
    (Size.mk 2147483649 1 1).offset_to_index
        ((Size.mk 2147483649 1 1).index_to_offset 2147483648) =
      18446744071562067968 ∧
    (18446744071562067968 : Nat) ≠ 2147483648 := by
  refine ⟨by decide, by decide, by decide⟩

/-- C7 amended: the row-major mappings are mutually inverse for every extent
whose components are at most 2^31 (so every computed coordinate component
fits in i32) and every index below both the volume and 2^64 (the usize
width); the 2D area is below 2^64 automatically. -/
theorem natCast_ge_neg31 (n : Nat) : (-2147483648 : Int) ≤ (n : Int) :=
  le_trans (by norm_num) (Int.natCast_nonneg n)

theorem natCast_lt_pow31 {n m : Nat} (h : n < m) (hm : m ≤ 2147483648) :
    (n : Int) < 2147483648 := by
  exact_mod_cast lt_of_lt_of_le h hm

theorem lt_pow64_of_lt {n m : Nat} (h : n < m) (hm : m ≤ 2147483648) :
    n < 18446744073709551616 := by
  omega

theorem c7_roundtrip_amended :
    (∀ s : Size, ∀ i : Nat, s.x ≤ 2147483648 → s.y ≤ 2147483648 →
      s.z ≤ 2147483648 → i < s.x * s.y * s.z → i < 18446744073709551616 →
      s.offset_to_index (s.index_to_offset i) = i) ∧
    (∀ s : Size2D, ∀ i : Nat, s.x ≤ 2147483648 → s.z ≤ 2147483648 →
      i < s.x * s.z →
      s.offset_to_index (s.index_to_offset i) = i) := by
  constructor
  · intro s i hx hy hz hi hi64
    have hz0 : 0 < s.z := by
      rcases Nat.eq_zero_or_pos s.z with h | h
      · rw [h, Nat.mul_zero] at hi
        exact absurd hi (Nat.not_lt_zero i)
      · exact h
    have hx0 : 0 < s.x := by
      rcases Nat.eq_zero_or_pos s.x with h | h
      · rw [h, Nat.zero_mul, Nat.zero_mul] at hi
        exact absurd hi (Nat.not_lt_zero i)
      · exact h
    have hzb : i % s.z < s.z := Nat.mod_lt i hz0
    have hxy : i / s.z < s.x * s.y := by
      rw [Nat.div_lt_iff_lt_mul hz0]
      exact hi
    have hxb : (i / s.z) % s.x < s.x := Nat.mod_lt _ hx0
    have hyb : (i / s.z) / s.x < s.y := by
      rw [Nat.div_lt_iff_lt_mul hx0, Nat.mul_comm s.y s.x]
      exact hxy
    simp only [Size.index_to_offset, Size.offset_to_index]
    rw [wrap32s_eq ((i % s.z : Nat) : Int) (natCast_ge_neg31 _)
        (natCast_lt_pow31 hzb hz),
      wrap32s_eq ((i / s.z % s.x : Nat) : Int) (natCast_ge_neg31 _)
        (natCast_lt_pow31 hxb hx),
      wrap32s_eq ((i / s.z / s.x : Nat) : Int) (natCast_ge_neg31 _)
        (natCast_lt_pow31 hyb hy),
      usizeOfI32_natCast (i % s.z) (lt_pow64_of_lt hzb hz),
      usizeOfI32_natCast (i / s.z % s.x) (lt_pow64_of_lt hxb hx),
      usizeOfI32_natCast (i / s.z / s.x) (lt_pow64_of_lt hyb hy),
      Nat.mod_add_div', Nat.mod_add_div', Nat.mod_eq_of_lt hi64]
  · intro s i hx hz hi
    have hz0 : 0 < s.z := by
      rcases Nat.eq_zero_or_pos s.z with h | h
      · rw [h, Nat.mul_zero] at hi
        exact absurd hi (Nat.not_lt_zero i)
      · exact h
    have hzb : i % s.z < s.z := Nat.mod_lt i hz0
    have hxb : i / s.z < s.x := by
      rw [Nat.div_lt_iff_lt_mul hz0]
      exact hi
    have hi64 : i < 18446744073709551616 := by
      have hmul : s.x * s.z ≤ 2147483648 * 2147483648 := Nat.mul_le_mul hx hz
      omega
    simp only [Size2D.index_to_offset, Size2D.offset_to_index]
    rw [wrap32s_eq ((i % s.z : Nat) : Int) (natCast_ge_neg31 _)
        (natCast_lt_pow31 hzb hz),
      wrap32s_eq ((i / s.z : Nat) : Int) (natCast_ge_neg31 _)
        (natCast_lt_pow31 hxb hx),
      usizeOfI32_natCast (i % s.z) (lt_pow64_of_lt hzb hz),
      usizeOfI32_natCast (i / s.z) (lt_pow64_of_lt hxb hx),
      Nat.mod_add_div', Nat.mod_eq_of_lt hi64]

/-- Closed instantiation of `c7_roundtrip_amended`: the 3D round trip at
extent (2,2,2) and index 5. -/
theorem c7_roundtrip_amended_witness :
    (5 < 2 * 2 * 2) ∧
      (Size.mk 2 2 2).offset_to_index ((Size.mk 2 2 2).index_to_offset 5) = 5 :=
  ⟨by decide, c7_roundtrip_amended.1 ⟨2, 2, 2⟩ 5 (by decide) (by decide)
    (by decide) (by decide) (by decide)⟩

/-- C2 evaluated: on the last element `ChunkStream::next` still calls the
mid-list accessor `next_block`. For a 1x1x1 stream whose single (hence
last) block is Newline-terminated as the wire format frames it ("1,0\n"),
`next` fails expecting a Semicolon; `HeightsStream::next` does use the
Comma-terminated accessor before the last element and the
Newline-terminated accessor on the last element ("5,6\n" over a 1x2 area). -/
theorem c2_last_element_accessor :
    ChunkStream.next ⟨[49, 44, 48, 10], 0, ⟨0, 0, 0⟩, ⟨1, 1, 1⟩⟩ =
      .error (.unexpectedTerminator .semicolon .newline) ∧
    HeightsStream.next ⟨[53, 44, 54, 10], 0, ⟨0, 0⟩, ⟨1, 2⟩⟩ =
      .ok (some (⟨⟨1, 2⟩, 1, 5⟩, ⟨[54, 10], 1, ⟨0, 0⟩, ⟨1, 2⟩⟩)) ∧
    HeightsStream.next ⟨[54, 10], 1, ⟨0, 0⟩, ⟨1, 2⟩⟩ =
      .ok (some (⟨⟨1, 2⟩, 2, 6⟩, ⟨[], 2, ⟨0, 0⟩, ⟨1, 2⟩⟩)) :=
  ⟨rfl, rfl, rfl⟩

/-- Response bytes of eight Semicolon-terminated blocks
"1,0;2,0;3,0;4,0;5,0;6,0;7,0;8,0;". -/
def blocks8Input : List Nat :=
  [49, 44, 48, 59, 50, 44, 48, 59, 51, 44, 48, 59, 52, 44, 48, 59,
   53, 44, 48, 59, 54, 44, 48, 59, 55, 44, 48, 59, 56, 44, 48, 59]

/-- A fresh `ChunkStream` for corners (0,0,0) and (1,1,1), with origin and
size computed as in `ChunkStream::new` (component minimum, |delta|+1). -/
def chunkStream8 : ChunkStream :=
  ⟨blocks8Input, 0, Coordinate.min ⟨0, 0, 0⟩ ⟨1, 1, 1⟩,
    Coordinate.size_between ⟨0, 0, 0⟩ ⟨1, 1, 1⟩⟩

/-- The items yielded by fully draining `chunkStream8` via `next`. -/
def chunkItems8 : List StreamItem :=
  match ChunkStream.drainFuel 9 chunkStream8 with
  | .ok (items, _) => items
  | .error _ => []

/-- C3 evaluated at the failing input: the stream for corners (0,0,0) and
(1,1,1) has volume 8 and draining an 8-block response (Semicolon-framed,
which is what this code's `next` can consume) yields exactly 8 items, but
their offset positions are `index_to_offset` of the post-increment cursor
values 1..8: the corner (0,0,0) is never visited and the final item
reports (0,2,0), outside the extent - not the 8 points of the unit cube. -/
theorem c3_positions_off_by_one :
    chunkStream8.size.x * chunkStream8.size.y * chunkStream8.size.z = 8 ∧
    chunkItems8.length = 8 ∧
    chunkItems8.map StreamItem.position_offset =
      [⟨0, 0, 1⟩, ⟨1, 0, 0⟩, ⟨1, 0, 1⟩, ⟨0, 1, 0⟩,
       ⟨0, 1, 1⟩, ⟨1, 1, 0⟩, ⟨1, 1, 1⟩, ⟨0, 2, 0⟩] ∧
    (Coordinate.mk 0 0 0) ∉ chunkItems8.map StreamItem.position_offset ∧
    ¬ chunkStream8.size.contains ⟨0, 2, 0⟩ :=
  ⟨rfl, rfl, rfl, by decide, by decide⟩

/-- Response bytes of the heights list "1,2,3,4\n". -/
def heights4Input : List Nat := [49, 44, 50, 44, 51, 44, 52, 10]

/-- A fresh `HeightsStream` for corners (0,0) and (1,1). -/
def heightsStream4 : HeightsStream :=
  ⟨heights4Input, 0, Coordinate2D.min ⟨0, 0⟩ ⟨1, 1⟩,
    Coordinate2D.size_between ⟨0, 0⟩ ⟨1, 1⟩⟩

/-- The items yielded by fully draining `heightsStream4` via `next`. -/
def heightsItems4 : List HeightsStreamItem :=
  match HeightsStream.drainFuel 5 heightsStream4 with
  | .ok (items, _) => items
  | .error _ => []

/-- The eight blocks decoded from `blocks8Input`. -/
def blocks8List : List Block :=
  [⟨1, 0⟩, ⟨2, 0⟩, ⟨3, 0⟩, ⟨4, 0⟩, ⟨5, 0⟩, ⟨6, 0⟩, ⟨7, 0⟩, ⟨8, 0⟩]

/-- C6 evaluated: `collect` on a partially-consumed stream hits the
assertion (modelled as `none`) for both stream kinds, and `collect` on a
fresh stream succeeds - but `get_offset` disagrees with the positions the
drain reported: `get_offset` at the offset of 0-based index i returns the
i-th drained value, while the drained item reporting that same position
carries the previous value, and no item ever reports position zero. -/
theorem c6_collect_precondition_and_mismatch :
    ChunkStream.collect ⟨blocks8Input, 1, ⟨0, 0, 0⟩, ⟨2, 2, 2⟩⟩ = none ∧
    HeightsStream.collect ⟨heights4Input, 3, ⟨0, 0⟩, ⟨2, 2⟩⟩ = none ∧
    ChunkStream.collect chunkStream8 =
      some (.ok ⟨blocks8List, ⟨0, 0, 0⟩, ⟨2, 2, 2⟩⟩) ∧
    HeightsStream.collect heightsStream4 =
      some (.ok ⟨[1, 2, 3, 4], ⟨0, 0⟩, ⟨2, 2⟩⟩) ∧
    Chunk.get_offset ⟨blocks8List, ⟨0, 0, 0⟩, ⟨2, 2, 2⟩⟩ ⟨0, 0, 1⟩ =
      some ⟨2, 0⟩ ∧
    (chunkItems8.map (fun it => (it.position_offset, it.block))).head? =
      some (⟨0, 0, 1⟩, ⟨1, 0⟩) ∧
    Heights.get_offset ⟨[1, 2, 3, 4], ⟨0, 0⟩, ⟨2, 2⟩⟩ ⟨0, 0⟩ = some 1 ∧
    Heights.get_offset ⟨[1, 2, 3, 4], ⟨0, 0⟩, ⟨2, 2⟩⟩ ⟨0, 1⟩ = some 2 ∧
    heightsItems4.map (fun it => (it.position_offset, it.height)) =
      [(⟨0, 1⟩, 1), (⟨1, 0⟩, 2), (⟨1, 1⟩, 3), (⟨2, 0⟩, 4)] ∧
    (Coordinate2D.mk 0 0) ∉ heightsItems4.map HeightsStreamItem.position_offset :=
  ⟨rfl, rfl, rfl, rfl, rfl, rfl, rfl, rfl, rfl, by decide⟩

theorem peek_of_lt (r : BufReader) (h : r.index < r.length) :
    BufReader.peek r = .ok (r.buffer.getD r.index 0, r) := by
  unfold BufReader.peek
  rw [if_neg (by omega)]

theorem peek_ok_state (r : BufReader) (b : Nat) (r' : BufReader)
    (h : BufReader.peek r = .ok (b, r')) :
    r'.index < r'.length ∧ r'.buffer.getD r'.index 0 = b := by
  unfold BufReader.peek at h
  split at h
  · split at h
    · simp at h
    · rename_i c rest heq
      split at h
      · simp at h
      · rename_i hl
        simp only [Except.ok.injEq, Prod.mk.injEq] at h
        obtain ⟨hb, hr⟩ := h
        subst hr
        exact ⟨by simpa using Nat.pos_of_ne_zero hl, hb⟩
  · simp only [Except.ok.injEq, Prod.mk.injEq] at h
    obtain ⟨hb, hr⟩ := h
    subst hr
    rename_i hc
    exact ⟨by omega, hb⟩

/-- C9: the byte-cursor contract. A successful `peek` is idempotent (a
second `peek` returns the same byte and state); when the buffer is not
exhausted `peek` touches nothing and returns `buffer[index]`; `next` is
exactly `peek` followed by advancing the cursor past the peeked byte; and
`peek`/`next` fail - always with `UnexpectedEof` - exactly when the buffer
is exhausted and the refill attempt reads zero bytes from the source. -/
theorem c9_bufreader_contract :
    (∀ r b r', BufReader.peek r = .ok (b, r') →
      BufReader.peek r' = .ok (b, r')) ∧
    (∀ r : BufReader, r.index < r.length →
      BufReader.peek r = .ok (r.buffer.getD r.index 0, r)) ∧
    (∀ r b r', BufReader.peek r = .ok (b, r') →
      BufReader.next r = .ok (b, { r' with index := r'.index + 1 })) ∧
    (∀ r : BufReader, (∃ e, BufReader.peek r = .error e) ↔
      (r.length ≤ r.index ∧ r.inner.headD [] = [])) ∧
    (∀ r e, BufReader.peek r = .error e → e = .unexpectedEof) ∧
    (∀ r e, BufReader.next r = .error e ↔ BufReader.peek r = .error e) := by
  refine ⟨?_, peek_of_lt, ?_, ?_, ?_, ?_⟩
  · intro r b r' h
    obtain ⟨h1, h2⟩ := peek_ok_state r b r' h
    rw [peek_of_lt r' h1, h2]
  · intro r b r' h
    unfold BufReader.next
    rw [h]
  · intro r
    constructor
    · rintro ⟨e, he⟩
      unfold BufReader.peek at he
      split at he
      · rename_i hc
        split at he
        · rename_i heq
          exact ⟨hc, by rw [heq]; rfl⟩
        · rename_i c rest heq
          split at he
          · rename_i hl
            refine ⟨hc, ?_⟩
            rw [heq]
            simpa using List.length_eq_zero.mp hl
          · simp at he
      · simp at he
    · rintro ⟨hc, hh⟩
      refine ⟨.unexpectedEof, ?_⟩
      unfold BufReader.peek
      rw [if_pos hc]
      cases heq : r.inner with
      | nil => rfl
      | cons c rest =>
        rw [heq] at hh
        simp only [List.headD_cons] at hh
        subst hh
        simp
  · intro r e he
    unfold BufReader.peek at he
    split at he
    · split at he
      · simp only [Except.error.injEq] at he
        exact he.symm
      · split at he
        · simp only [Except.error.injEq] at he
          exact he.symm
        · simp at he
    · simp at he
  · intro r e
    unfold BufReader.next
    cases hp : BufReader.peek r with
    | error e' => simp [hp]
    | ok x =>
      obtain ⟨b, r'⟩ := x
      simp [hp]

/-- Closed instantiation of `c9_bufreader_contract`: peek idempotence after
a refill from a concrete two-byte source chunk. -/
theorem c9_bufreader_contract_witness :
    BufReader.peek ⟨[[7, 8]], [0, 0], 99, 0⟩ = .ok (7, ⟨[], [7, 8], 0, 2⟩) ∧
      BufReader.peek ⟨[], [7, 8], 0, 2⟩ = .ok (7, ⟨[], [7, 8], 0, 2⟩) :=
  ⟨rfl, c9_bufreader_contract.1 ⟨[[7, 8]], [0, 0], 99, 0⟩ 7 ⟨[], [7, 8], 0, 2⟩ rfl⟩

end Mcrs
